import Mathlib

/-!
Verification of the vidurai daemon core (Event Stabilizer, Archiver, IPC
transport) against its specification.  The daemon implementation files are
not present in the repository snapshot (only their test suites are), so the
components are modelled from the specification's own description of the
data model and operations, and the test suites are used to pin down the
interfaces (field names, option names, counter names).

Timestamps and JSON numbers are modelled as integers (the spec allows
ms-int epoch values); serialized sizes are abstract `Nat`-valued size functions.
-/

namespace Vidurai

/-- Modelled from the spec: JSON values as they appear in event payloads and
in the dictionaries produced by `EventRecord.to_dict` (the implementation's
JSON layer is external to the snapshot).  Numbers are modelled as integers
(ms-int timestamps, integer payload fields); serialization merely transports them. -/
inductive JVal where
  | jnum (n : ℤ)
  | jstr (s : String)
  | jbool (b : Bool)
  | jnull
  | jobj (fields : List (String × JVal))

/-- Association-list lookup for string-keyed JSON objects. -/
def jlookup (k : String) : List (String × JVal) → Option JVal
  | [] => none
  | (k₂, v) :: rest => if k₂ = k then some v else jlookup k rest

/-- Modelled from the spec: the canonical event record persisted by the
Archiver (`timestamp`, `event_type`, `file`, `project`, `data`,
`session_id`), as exercised by `test_archiver.py`. -/
structure EventRecord where
  timestamp : ℤ
  event_type : String
  file : Option String
  project : String
  data : List (String × JVal)
  session_id : Option String

/-- An optional string rendered as a JSON value (`null` when absent). -/
def optStr : Option String → JVal
  | none => JVal.jnull
  | some s => JVal.jstr s

/-- Modelled from the spec: `EventRecord.to_dict` maps each field to the
dictionary key of the same name. -/
def EventRecord.to_dict (r : EventRecord) : List (String × JVal) :=
  [("timestamp", JVal.jnum r.timestamp),
   ("event_type", JVal.jstr r.event_type),
   ("file", optStr r.file),
   ("project", JVal.jstr r.project),
   ("data", JVal.jobj r.data),
   ("session_id", optStr r.session_id)]

/-- Read a JSON value back as a number. -/
def asNum : Option JVal → Option ℤ
  | some (JVal.jnum q) => some q
  | _ => none

/-- Read a JSON value back as a string. -/
def asStr : Option JVal → Option String
  | some (JVal.jstr s) => some s
  | _ => none

/-- Read a JSON value back as an optional string (`null` ↦ `none`). -/
def asOptStr : Option JVal → Option (Option String)
  | some (JVal.jstr s) => some (some s)
  | some JVal.jnull => some none
  | _ => none

/-- Read a JSON value back as an object. -/
def asObj : Option JVal → Option (List (String × JVal))
  | some (JVal.jobj m) => some m
  | _ => none

/-- Modelled from the spec: `EventRecord.from_dict` reconstructs a record
from a dictionary, failing (rather than raising) when a field is missing or
has the wrong shape. -/
def EventRecord.from_dict (d : List (String × JVal)) : Option EventRecord :=
  match asNum (jlookup "timestamp" d), asStr (jlookup "event_type" d),
        asOptStr (jlookup "file" d), asStr (jlookup "project" d),
        asObj (jlookup "data" d), asOptStr (jlookup "session_id" d) with
  | some ts, some et, some f, some pr, some da, some sid =>
      some ⟨ts, et, f, pr, da, sid⟩
  | _, _, _, _, _, _ => none

/-! ## Archiver

Modelled from the spec: two-tier storage with an append-only hot tier
(exactly one OPEN hot file, rotation at `hot_max_size`), a columnar cold
tier produced by `archive_hot_files`, retention cleanup and a
tier-transparent `query`. -/

/-- Hot-file lifecycle states (§3: OPEN → CLOSED → ARCHIVED; ARCHIVED files
are deleted once their cold partition exists, so only OPEN and CLOSED files
remain on disk). -/
inductive HotStatus where
  | OPEN
  | CLOSED
deriving DecidableEq, Repr

/-- Modelled from the spec: an on-disk hot file — rotation sequence number,
creation time, lifecycle status and its list of event lines. -/
structure HotFile where
  seq : ℕ
  createdAt : ℤ
  status : HotStatus
  events : List EventRecord

/-- Modelled from the spec: a write-once cold partition holding the events
of archived hot files, keyed by a time-derived range used for partition
pruning. -/
structure ColdPartition where
  tsLo : ℤ
  tsHi : ℤ
  createdAt : ℤ
  events : List EventRecord

/-- Modelled from the spec: the Archiver configuration surface
(`hot_max_size`, `hot_max_age`, `hot_retention_days`, cold retention) plus
runtime availability of the columnar (pyarrow/Parquet) backend. -/
structure ArchiverOptions where
  hot_max_size : ℕ
  hot_max_age : ℤ
  hot_retention : ℤ
  cold_retention : ℤ
  parquet_available : Bool

/-- Modelled from the spec: the Archiver's storage state — the single OPEN
hot file (`current`), rotated CLOSED hot files, cold partitions and the next
rotation sequence number. -/
structure ArchState where
  current : HotFile
  closedFiles : List HotFile
  cold : List ColdPartition
  nextSeq : ℕ

/-- Serialized size of a hot file under an abstract per-event size
function. -/
def fileSize (esize : EventRecord → ℕ) (f : HotFile) : ℕ :=
  (f.events.map esize).sum

/-- All hot files on disk: the OPEN file plus the rotated CLOSED ones. -/
def allHotFiles (s : ArchState) : List HotFile :=
  s.current :: s.closedFiles

/-- Every event currently stored in the hot tier. -/
def hotEvents (s : ArchState) : List EventRecord :=
  s.current.events ++ s.closedFiles.flatMap (fun f => f.events)

/-- Every event currently stored in the cold tier. -/
def coldEvents (s : ArchState) : List EventRecord :=
  s.cold.flatMap (fun p => p.events)

/-- A fresh Archiver state: one empty OPEN hot file, nothing else. -/
def ArchState.init (now : ℤ) : ArchState :=
  { current := { seq := 0, createdAt := now, status := HotStatus.OPEN, events := [] },
    closedFiles := [],
    cold := [],
    nextSeq := 1 }

/-- Modelled from the spec: `write(event)` appends to the OPEN hot file; if
that would push the file past `hot_max_size`, the OPEN file is closed and a
new OPEN file is created before the event is written to it. -/
def writeE (opts : ArchiverOptions) (esize : EventRecord → ℕ) (now : ℤ)
    (s : ArchState) (e : EventRecord) : ArchState :=
  if opts.hot_max_size < fileSize esize s.current + esize e then
    { s with
      closedFiles := s.closedFiles ++ [{ s.current with status := HotStatus.CLOSED }],
      current := { seq := s.nextSeq, createdAt := now, status := HotStatus.OPEN,
                   events := [e] },
      nextSeq := s.nextSeq + 1 }
  else
    { s with current := { s.current with events := s.current.events ++ [e] } }

/-- Write a whole list of events in order (`write_batch`). -/
def writeAll (opts : ArchiverOptions) (esize : EventRecord → ℕ) (now : ℤ)
    (s : ArchState) (es : List EventRecord) : ArchState :=
  es.foldl (writeE opts esize now) s

/-- Lower bound of a list of event timestamps (partition metadata). -/
def eventsLo : List EventRecord → ℤ
  | [] => 0
  | [e] => e.timestamp
  | e :: rest => min e.timestamp (eventsLo rest)

/-- Upper bound of a list of event timestamps (partition metadata). -/
def eventsHi : List EventRecord → ℤ
  | [] => 0
  | [e] => e.timestamp
  | e :: rest => max e.timestamp (eventsHi rest)

/-- Convert one CLOSED hot file into exactly one cold partition whose
time-range metadata is derived from its events. -/
def mkPartition (now : ℤ) (f : HotFile) : ColdPartition :=
  { tsLo := eventsLo f.events, tsHi := eventsHi f.events,
    createdAt := now, events := f.events }

/-- A CLOSED hot file is eligible for archival once older than
`hot_max_age`. -/
def archEligible (opts : ArchiverOptions) (now : ℤ) (f : HotFile) : Bool :=
  f.status == HotStatus.CLOSED && decide (opts.hot_max_age < now - f.createdAt)

/-- Modelled from the spec: `archive_hot_files()` — a no-op returning 0 when
the columnar backend is unavailable; otherwise each eligible CLOSED hot file
becomes exactly one new cold partition and is then deleted from the hot
tier. Returns the number of files archived together with the new state. -/
def archiveHotFiles (opts : ArchiverOptions) (now : ℤ) (s : ArchState) :
    ℕ × ArchState :=
  if opts.parquet_available then
    let elig := s.closedFiles.filter (archEligible opts now)
    let keep := s.closedFiles.filter (fun f => !archEligible opts now f)
    (elig.length,
     { s with closedFiles := keep, cold := s.cold ++ elig.map (mkPartition now) })
  else
    (0, s)

/-- Deletion candidate predicate for retention cleanup: a hot file may be
removed only when it is not the OPEN file and its age exceeds
`hot_retention`. -/
def canDeleteHot (opts : ArchiverOptions) (now : ℤ) (f : HotFile) : Bool :=
  !(f.status == HotStatus.OPEN) && decide (opts.hot_retention < now - f.createdAt)

/-- Deletion candidate predicate for cold partitions. -/
def canDeleteCold (opts : ArchiverOptions) (now : ℤ) (p : ColdPartition) : Bool :=
  decide (opts.cold_retention < now - p.createdAt)

/-- Modelled from the spec: `cleanup_old_files()` removes hot files older
than the hot retention window and cold partitions older than the cold
retention policy, never touching the OPEN hot file; returns
`(hot_removed, cold_removed)` with the new state. -/
def cleanupOldFiles (opts : ArchiverOptions) (now : ℤ) (s : ArchState) :
    (ℕ × ℕ) × ArchState :=
  let keepHot := s.closedFiles.filter (fun f => !canDeleteHot opts now f)
  let keepCold := s.cold.filter (fun p => !canDeleteCold opts now p)
  ((s.closedFiles.length - keepHot.length, s.cold.length - keepCold.length),
   { s with closedFiles := keepHot, cold := keepCold })

/-- Query parameters of `query(event_types?, project?, start_time?,
end_time?, limit?)`. -/
structure QueryParams where
  event_types : Option (List String)
  project : Option String
  start_time : Option ℤ
  end_time : Option ℤ
  limit : Option ℕ

/-- Row filter: does an event match the query? -/
def matchesQ (q : QueryParams) (e : EventRecord) : Bool :=
  (match q.event_types with
   | none => true
   | some ts => ts.contains e.event_type) &&
  (match q.project with
   | none => true
   | some p => e.project == p) &&
  (match q.start_time with
   | none => true
   | some a => decide (a ≤ e.timestamp)) &&
  (match q.end_time with
   | none => true
   | some b => decide (e.timestamp ≤ b))

/-- Partition pruning: a cold partition entirely outside the requested time
range is skipped before row filtering. -/
def prunedOut (q : QueryParams) (p : ColdPartition) : Bool :=
  (match q.start_time with
   | none => false
   | some a => decide (p.tsHi < a)) ||
  (match q.end_time with
   | none => false
   | some b => decide (b < p.tsLo))

/-- Matching rows drawn from the cold tier, with partition pruning. -/
def coldQueryEvents (q : QueryParams) (s : ArchState) : List EventRecord :=
  s.cold.flatMap (fun p =>
    if prunedOut q p then [] else p.events.filter (matchesQ q))

/-- Insert an event into a timestamp-sorted list. -/
def insertByTs (e : EventRecord) : List EventRecord → List EventRecord
  | [] => [e]
  | x :: xs =>
      if e.timestamp ≤ x.timestamp then e :: x :: xs else x :: insertByTs e xs

/-- Sort events by timestamp (insertion sort — the model only needs that the
result is a permutation of the input). -/
def sortByTs (l : List EventRecord) : List EventRecord :=
  l.foldr insertByTs []

/-- Modelled from the spec: `query()` scans matching lines from hot files
and matching rows from pruned cold partitions, merges, sorts by timestamp
and truncates to `limit`. -/
def queryExec (q : QueryParams) (s : ArchState) : List EventRecord :=
  let merged := sortByTs ((hotEvents s).filter (matchesQ q) ++ coldQueryEvents q s)
  match q.limit with
  | none => merged
  | some n => merged.take n

/-- Well-formedness of the cold tier: each partition's time-range metadata
actually bounds the timestamps of the events it holds (this is what makes
partition pruning lossless). -/
def ColdWF (s : ArchState) : Prop :=
  ∀ p ∈ s.cold, ∀ e ∈ p.events, p.tsLo ≤ e.timestamp ∧ e.timestamp ≤ p.tsHi

/-- Total number of events across all hot files (the recomputed
`hot_events` statistic). -/
def hotEventCount (s : ArchState) : ℕ :=
  ((allHotFiles s).map (fun f => f.events.length)).sum

/-! ## Event Stabilizer

Modelled from the spec: `submit` validates the event, applies the
Path/Type filter, then the rolling one-second rate limiter, then the dedup
check against recently emitted events, then debounce (a per-key pending
entry standing in for the per-key cancellable timer; `fireTimer` models the
timer firing).  `flush` force-emits everything pending.  In batching mode
emissions accumulate in `batch`; otherwise they go directly to `emitted`
(which models the subscriber callbacks). -/

/-- Modelled from the spec: a raw submitted event (`type`, optional `file`,
free-form `data`); `data` values are modelled as strings. -/
structure RawEvent where
  type : String
  file : Option String
  data : List (String × String)
deriving DecidableEq, Repr

/-- The composite debounce identity of an event: `(event_type, file)`. -/
def eventKey (e : RawEvent) : String × Option String := (e.type, e.file)

/-- Modelled from the spec: a stabilized event — the surviving raw event
plus `debounce_count` and first/last-seen timestamps. -/
structure StabilizedEvent where
  event : RawEvent
  debounce_count : ℕ
  firstSeen : ℤ
  lastSeen : ℤ
deriving DecidableEq, Repr

/-- A per-key pending debounce entry (the cancellable timer's payload). -/
structure PendingEntry where
  event : RawEvent
  count : ℕ
  firstSeen : ℤ
  lastSeen : ℤ
deriving DecidableEq, Repr

/-- The stabilizer's running counters. -/
structure StabStats where
  received : ℕ
  processed : ℕ
  filtered : ℕ
  debounced : ℕ
  deduplicated : ℕ
  rate_limited : ℕ
deriving DecidableEq, Repr

/-- All counters zero. -/
def StabStats.zero : StabStats :=
  { received := 0, processed := 0, filtered := 0, debounced := 0,
    deduplicated := 0, rate_limited := 0 }

/-- Modelled from the spec: the Stabilizer configuration surface. -/
structure StabilizerOptions where
  debounce_delay : ℤ
  max_events_per_second : ℕ
  dedup_window : ℤ
  enable_smart_filter : Bool
  enable_batching : Bool
  max_batch_size : ℕ

/-- Modelled from the spec: the Stabilizer state — per-key pending debounce
entries (one cancellable timer each), the recently-emitted dedup cache, the
rolling one-second rate window, the current batch, the emission log and the
counters. -/
structure StabState where
  pending : List ((String × Option String) × PendingEntry)
  recent : List (RawEvent × ℤ)
  winStart : ℤ
  winCount : ℕ
  batch : List StabilizedEvent
  emitted : List StabilizedEvent
  stats : StabStats

/-- A fresh Stabilizer state. -/
def StabState.fresh (t : ℤ) : StabState :=
  { pending := [], recent := [], winStart := t, winCount := 0,
    batch := [], emitted := [], stats := StabStats.zero }

/-- Char-list prefix test. -/
def prefixEq : List Char → List Char → Bool
  | [], _ => true
  | _ :: _, [] => false
  | a :: as, b :: bs => a == b && prefixEq as bs

/-- Char-list substring test. -/
def hasSub (p : List Char) : List Char → Bool
  | [] => prefixEq p []
  | c :: cs => prefixEq p (c :: cs) || hasSub p cs

/-- Char-list suffix test. -/
def endsWithL (p l : List Char) : Bool :=
  prefixEq p.reverse l.reverse

/-- Modelled from the spec: the Path/Type Filter's static ignore rules
(dependency directories, VCS internals, temp files, lockfiles), as
exercised by `test_should_ignore_file`. -/
def should_ignore_file (path : String) : Bool :=
  let cs := path.toList
  hasSub "node_modules".toList cs ||
  hasSub "/.git/".toList cs ||
  hasSub "\\.git\\".toList cs ||
  hasSub "/dist/".toList cs ||
  hasSub "\\dist\\".toList cs ||
  endsWithL ".tmp".toList cs ||
  endsWithL "package-lock.json".toList cs ||
  endsWithL "yarn.lock".toList cs

/-- Does the Path/Type Filter drop this event? -/
def ignoredFile (e : RawEvent) : Bool :=
  match e.file with
  | none => false
  | some f => should_ignore_file f

/-- The stabilized event carried by a pending entry when its timer fires. -/
def mkStab (en : PendingEntry) : StabilizedEvent :=
  { event := en.event, debounce_count := en.count,
    firstSeen := en.firstSeen, lastSeen := en.lastSeen }

/-- Emit a stabilized event: record it in the dedup cache, bump `processed`
and append it to the batch (batching mode) or to the emission log. -/
def emitS (opts : StabilizerOptions) (t : ℤ) (s : StabState)
    (ev : StabilizedEvent) : StabState :=
  let s₁ := { s with recent := s.recent ++ [(ev.event, t)],
                     stats := { s.stats with processed := s.stats.processed + 1 } }
  if opts.enable_batching then { s₁ with batch := s₁.batch ++ [ev] }
  else { s₁ with emitted := s₁.emitted ++ [ev] }

/-- Dedup test: is a structurally identical event already in the
recently-emitted cache inside the recency window? -/
def recentHit (opts : StabilizerOptions) (t : ℤ) (s : StabState)
    (e : RawEvent) : Bool :=
  s.recent.any (fun r => decide (r.1 = e) && decide (t - r.2 ≤ opts.dedup_window))

/-- Look up the pending debounce entry for a key. -/
def findPend (k : String × Option String) :
    List ((String × Option String) × PendingEntry) → Option PendingEntry
  | [] => none
  | (k₂, en) :: rest => if k₂ = k then some en else findPend k rest

/-- Remove the pending entry for a key (the timer was cancelled or
fired). -/
def removePend (k : String × Option String) :
    List ((String × Option String) × PendingEntry) →
    List ((String × Option String) × PendingEntry)
  | [] => []
  | (k₂, en) :: rest =>
      if k₂ = k then removePend k rest else (k₂, en) :: removePend k rest

/-- Restart the pending entry's timer for a key: replace the standing
event, bump the collapse count and the last-seen time — never adding a
second entry for the key. -/
def updatePend (k : String × Option String) (e : RawEvent) (t : ℤ) :
    List ((String × Option String) × PendingEntry) →
    List ((String × Option String) × PendingEntry)
  | [] => []
  | (k₂, en) :: rest =>
      if k₂ = k then
        (k₂, { en with event := e, count := en.count + 1, lastSeen := t }) :: rest
      else (k₂, en) :: updatePend k e t rest

/-- Modelled from the spec: `submit(rawEvent)` — validate, Path/Type
filter, rolling one-second rate limit, dedup against recent emissions,
then debounce (with immediate emission when the debounce delay is zero). -/
def submit (opts : StabilizerOptions) (t : ℤ) (s : StabState)
    (e : RawEvent) : StabState :=
  let s := { s with stats := { s.stats with received := s.stats.received + 1 } }
  if e.type = "" then
    { s with stats := { s.stats with filtered := s.stats.filtered + 1 } }
  else if opts.enable_smart_filter && ignoredFile e then
    { s with stats := { s.stats with filtered := s.stats.filtered + 1 } }
  else
    let ws := if 1 ≤ t - s.winStart then t else s.winStart
    let wc := if 1 ≤ t - s.winStart then 0 else s.winCount
    if opts.max_events_per_second ≤ wc then
      { s with winStart := ws, winCount := wc,
               stats := { s.stats with rate_limited := s.stats.rate_limited + 1 } }
    else
      let s := { s with winStart := ws, winCount := wc + 1 }
      if recentHit opts t s e then
        { s with stats := { s.stats with deduplicated := s.stats.deduplicated + 1 } }
      else
        match findPend (eventKey e) s.pending with
        | some _ =>
            { s with pending := updatePend (eventKey e) e t s.pending,
                     stats := { s.stats with debounced := s.stats.debounced + 1 } }
        | none =>
            if opts.debounce_delay ≤ 0 then
              emitS opts t s { event := e, debounce_count := 1, firstSeen := t, lastSeen := t }
            else
              { s with pending := s.pending ++
                  [(eventKey e, { event := e, count := 1, firstSeen := t, lastSeen := t })] }

/-- Modelled from the spec: the per-key debounce timer fires — the standing
entry is removed and emitted with its collapse count. -/
def fireTimer (opts : StabilizerOptions) (t : ℤ) (s : StabState)
    (k : String × Option String) : StabState :=
  match findPend k s.pending with
  | none => s
  | some en => emitS opts t { s with pending := removePend k s.pending } (mkStab en)

/-- Modelled from the spec: `flush()` — synchronously emit every pending
debounced entry (cancelling its timer) and drain the batch; no pending
state remains afterwards. -/
def flushS (opts : StabilizerOptions) (t : ℤ) (s : StabState) : StabState :=
  let s₁ := s.pending.foldl (fun acc kv => emitS opts t acc (mkStab kv.2))
    { s with pending := [] }
  { s₁ with emitted := s₁.emitted ++ s₁.batch, batch := [] }

/-- The Stabilizer state reached mid-way through the debounce scenario:
`i` accepted submissions so far, all collapsed into the single pending
entry `en` for key `k`, `deb` of them counted as debounced, nothing
emitted. -/
def midState (k : String × Option String) (en : PendingEntry) (i deb : ℕ) :
    StabState :=
  { pending := [(k, en)], recent := [], winStart := 0, winCount := i,
    batch := [], emitted := [],
    stats := { received := i, processed := 0, filtered := 0, debounced := deb,
               deduplicated := 0, rate_limited := 0 } }

/-- The Stabilizer state reached mid-way through the rate-limit scenario:
`i` events received so far, of which the events `acc` were accepted and
immediately emitted (zero debounce delay), the rest rate-limited. -/
def c4State (acc : List RawEvent) (i : ℕ) : StabState :=
  { pending := [],
    recent := acc.map (fun e => (e, 0)),
    winStart := 0, winCount := acc.length, batch := [],
    emitted := acc.map (fun e =>
      { event := e, debounce_count := 1, firstSeen := 0, lastSeen := 0 }),
    stats := { received := i, processed := acc.length, filtered := 0,
               debounced := 0, deduplicated := 0,
               rate_limited := i - acc.length } }

/-! ## IPC transport

Modelled from the spec: newline-delimited JSON messages over a local
socket; the JSON parse of each line is external to the model, so an inbound
line is an `Option IpcMsg` — `none` is a line whose JSON failed to parse. -/

/-- Modelled from the spec: an IPC wire message
`{v, type, ts, id?, ...}` plus the `ok` flag carried by responses (the
free-form `data` payload is not needed here). -/
structure IpcMsg where
  v : ℕ
  type : String
  ts : ℤ
  id : Option String
  ok : Option Bool
deriving DecidableEq, Repr

/-- The pong response to a ping, echoing the request id. -/
def mkPong (m : IpcMsg) : IpcMsg :=
  { v := 1, type := "pong", ts := m.ts, id := m.id, ok := some true }

/-- The generic ack response to any other id-carrying request. -/
def mkAck (m : IpcMsg) : IpcMsg :=
  { v := 1, type := "ack", ts := m.ts, id := m.id, ok := some true }

/-- Modelled from the spec: per-message handling — `ping` receives
`{type: "pong", ok: true}` with the same id; any other message carrying an
id receives an ack; the rest receive no response. -/
def handleMsg (m : IpcMsg) : List IpcMsg :=
  if m.type = "ping" then [mkPong m]
  else
    match m.id with
    | some _ => [mkAck m]
    | none => []

/-- Connection state: whether the server still holds the connection. -/
structure ConnState where
  alive : Bool
deriving DecidableEq, Repr

/-- Modelled from the spec: one inbound line — malformed JSON (`none`) is
skipped and logged, never terminating the connection; a parsed message is
handled when the connection is alive. -/
def connStep (c : ConnState) (line : Option IpcMsg) : ConnState × List IpcMsg :=
  if c.alive then
    match line with
    | none => (c, [])
    | some m => (c, handleMsg m)
  else (c, [])

/-- Process a whole inbound line sequence, accumulating responses in
order. -/
def runConn (c : ConnState) : List (Option IpcMsg) → ConnState × List IpcMsg
  | [] => (c, [])
  | line :: rest =>
      let r := connStep c line
      let rr := runConn r.1 rest
      (rr.1, r.2 ++ rr.2)

/-- A Stabilizer state with an empty dedup cache and a fresh rate window,
but arbitrary pending entries, batch, emission log and counters — the
state against which the dedup scenario is stated. -/
def dedupState (ps : List ((String × Option String) × PendingEntry))
    (B E : List StabilizedEvent) (st : StabStats) : StabState :=
  { pending := ps, recent := [], winStart := 0, winCount := 0,
    batch := B, emitted := E, stats := st }

/-! Concrete exemplar inputs used by witnesses and counterexamples. -/

/-- A concrete event record. -/
def cexRecord : EventRecord :=
  { timestamp := 0, event_type := "file_edit", file := none,
    project := "test", data := [], session_id := none }

/-- A size function assigning every event serialized size 2. -/
def cexSize : EventRecord → ℕ := fun _ => 2

/-- A size function assigning every event serialized size 1. -/
def witSize : EventRecord → ℕ := fun _ => 1

/-- Concrete archiver options: 1-byte hot files, immediate archival
eligibility and retention, columnar backend available. -/
def cexOpts : ArchiverOptions :=
  { hot_max_size := 1, hot_max_age := 0, hot_retention := 0,
    cold_retention := 0, parquet_available := true }

/-- Concrete archiver options with the columnar backend unavailable. -/
def noParquetOpts : ArchiverOptions :=
  { hot_max_size := 1000, hot_max_age := 0, hot_retention := 0,
    cold_retention := 0, parquet_available := false }

/-- Five concrete events for the round-trip scenario. -/
def witEvents : List EventRecord :=
  [{ timestamp := 1, event_type := "file_edit", file := some "/file0.ts",
     project := "test", data := [], session_id := none },
   { timestamp := 2, event_type := "file_edit", file := some "/file1.ts",
     project := "test", data := [], session_id := none },
   { timestamp := 3, event_type := "file_edit", file := some "/file2.ts",
     project := "test", data := [], session_id := none },
   { timestamp := 4, event_type := "terminal", file := none,
     project := "test", data := [], session_id := none },
   { timestamp := 5, event_type := "file_edit", file := some "/file4.ts",
     project := "test", data := [], session_id := none }]

/-- Archiver state holding the five events in a CLOSED hot file, with a
fresh OPEN file — the situation right before `archive_hot_files` in the
round-trip scenario. -/
def witArchState5 : ArchState :=
  { current := { seq := 1, createdAt := 1, status := HotStatus.OPEN, events := [] },
    closedFiles := [{ seq := 0, createdAt := 0, status := HotStatus.CLOSED,
                      events := witEvents }],
    cold := [],
    nextSeq := 2 }

/-- Archiver state whose OPEN hot file is older than the retention
window. -/
def witArchStateOld : ArchState :=
  { current := { seq := 0, createdAt := 0, status := HotStatus.OPEN,
                 events := [cexRecord] },
    closedFiles := [],
    cold := [],
    nextSeq := 1 }

/-- Query by project, no limit. -/
def witQueryP : QueryParams :=
  { event_types := none, project := some "test", start_time := none,
    end_time := none, limit := none }

/-- Stabilizer options with a positive debounce delay (debounce
scenario). -/
def witStabOpts : StabilizerOptions :=
  { debounce_delay := 1, max_events_per_second := 10, dedup_window := 5,
    enable_smart_filter := false, enable_batching := false, max_batch_size := 10 }

/-- Stabilizer options with zero debounce delay and a rate cap of 2
(rate-limit scenario). -/
def rateStabOpts : StabilizerOptions :=
  { debounce_delay := 0, max_events_per_second := 2, dedup_window := 5,
    enable_smart_filter := false, enable_batching := false, max_batch_size := 10 }

/-- Stabilizer options with zero debounce delay and a generous rate cap
(dedup scenario). -/
def dedupStabOpts : StabilizerOptions :=
  { debounce_delay := 0, max_events_per_second := 10, dedup_window := 5,
    enable_smart_filter := false, enable_batching := false, max_batch_size := 10 }

/-- A concrete file-edit raw event. -/
def editEvent : RawEvent :=
  { type := "file_edit", file := none, data := [("gist", "Edit")] }

/-- A concrete focus raw event (the dedup scenario's event). -/
def focusEvent : RawEvent :=
  { type := "focus", file := none, data := [] }

/-- Three distinct terminal events submitted in one second. -/
def termEvents : List RawEvent :=
  [{ type := "terminal", file := none, data := [("command", "cmd0")] },
   { type := "terminal", file := none, data := [("command", "cmd1")] },
   { type := "terminal", file := none, data := [("command", "cmd2")] }]

/-- A stabilizer state with a pending debounce entry for an unrelated key,
used to check that dedup leaves other keys untouched. -/
def witFrameState : StabState :=
  { pending := [(("file_edit", some "/project/src/a.ts"),
      { event := { type := "file_edit", file := some "/project/src/a.ts", data := [] },
        count := 3, firstSeen := 0, lastSeen := 0 })],
    recent := [], winStart := 0, winCount := 0, batch := [], emitted := [],
    stats := StabStats.zero }

/-- A concrete ping message. -/
def pingMsg : IpcMsg :=
  { v := 1, type := "ping", ts := 1234567890, id := some "test-1", ok := none }

/-- A second concrete ping message, sent after a malformed line. -/
def pingMsg2 : IpcMsg :=
  { v := 1, type := "ping", ts := 1234567891, id := some "test-2", ok := none }

/-! ## Helper lemmas -/

theorem insertByTs_perm (e : EventRecord) (l : List EventRecord) :
    List.Perm (insertByTs e l) (e :: l) := by
  induction l with
  | nil => exact List.Perm.refl _
  | cons x xs ih =>
      by_cases h : e.timestamp ≤ x.timestamp
      · simp [insertByTs, h]
      · simp only [insertByTs, if_neg h]
        exact (ih.cons x).trans (List.Perm.swap e x xs)

theorem sortByTs_perm (l : List EventRecord) : List.Perm (sortByTs l) l := by
  induction l with
  | nil => exact List.Perm.refl _
  | cons x xs ih =>
      simp only [sortByTs, List.foldr_cons]
      exact (insertByTs_perm x _).trans (ih.cons x)

theorem eventsLo_le (l : List EventRecord) : ∀ e ∈ l, eventsLo l ≤ e.timestamp := by
  induction l with
  | nil => simp
  | cons x xs ih =>
      cases xs with
      | nil => simp [eventsLo]
      | cons y ys =>
          intro e he
          rcases List.mem_cons.mp he with rfl | hmem
          · exact min_le_left _ _
          · exact le_trans (min_le_right _ _) (ih e hmem)

theorem eventsHi_ge (l : List EventRecord) : ∀ e ∈ l, e.timestamp ≤ eventsHi l := by
  induction l with
  | nil => simp
  | cons x xs ih =>
      cases xs with
      | nil => simp [eventsHi]
      | cons y ys =>
          intro e he
          rcases List.mem_cons.mp he with rfl | hmem
          · exact le_max_left _ _
          · exact le_trans (ih e hmem) (le_max_right _ _)

theorem matchesQ_false_of_pruned (q : QueryParams) (p : ColdPartition)
    (hp : prunedOut q p = true) (e : EventRecord) (he : e ∈ p.events)
    (hlo : p.tsLo ≤ e.timestamp) (hhi : e.timestamp ≤ p.tsHi) :
    matchesQ q e = false := by
  rcases Bool.or_eq_true_iff.mp hp with h | h
  · rcases hs : q.start_time with _ | a
    · rw [hs] at h; simp at h
    · rw [hs] at h
      have ha : p.tsHi < a := of_decide_eq_true h
      have : ¬ (a ≤ e.timestamp) := not_le.mpr (lt_of_le_of_lt hhi ha)
      simp [matchesQ, hs, this]
  · rcases hs : q.end_time with _ | b
    · rw [hs] at h; simp at h
    · rw [hs] at h
      have hb : b < p.tsLo := of_decide_eq_true h
      have : ¬ (e.timestamp ≤ b) := not_le.mpr (lt_of_lt_of_le hb hlo)
      simp [matchesQ, hs, this]

theorem coldQuery_eq_filter (q : QueryParams) (s : ArchState) (hwf : ColdWF s) :
    coldQueryEvents q s = (coldEvents s).filter (matchesQ q) := by
  unfold coldQueryEvents coldEvents
  rw [List.filter_flatMap]
  have : ∀ ps : List ColdPartition,
      (∀ p ∈ ps, ∀ e ∈ p.events, p.tsLo ≤ e.timestamp ∧ e.timestamp ≤ p.tsHi) →
      (ps.flatMap fun p => if prunedOut q p then [] else p.events.filter (matchesQ q))
        = ps.flatMap fun p => p.events.filter (matchesQ q) := by
    intro ps
    induction ps with
    | nil => intro _; rfl
    | cons p rest ih =>
        intro h
        have hrest := ih (fun p' hp' => h p' (List.mem_cons_of_mem _ hp'))
        have hhead : (if prunedOut q p then [] else p.events.filter (matchesQ q))
            = p.events.filter (matchesQ q) := by
          by_cases hp : prunedOut q p = true
          · rw [if_pos hp]
            have : p.events.filter (matchesQ q) = [] := by
              apply List.filter_eq_nil_iff.mpr
              intro e he
              have hb := h p (List.mem_cons_self _ _) e he
              simp [matchesQ_false_of_pruned q p hp e he hb.1 hb.2]
            rw [this]
          · rw [if_neg hp]
        simp only [List.flatMap_cons, hhead, hrest]
  exact this s.cold hwf

theorem archive_coldWF (opts : ArchiverOptions) (now : ℤ) (s : ArchState)
    (hwf : ColdWF s) : ColdWF (archiveHotFiles opts now s).2 := by
  by_cases hpa : opts.parquet_available = true
  · intro p hp e he
    simp only [archiveHotFiles, hpa, if_pos] at hp
    rcases List.mem_append.mp hp with hold | hnew
    · exact hwf p hold e he
    · rcases List.mem_map.mp hnew with ⟨f, _, rfl⟩
      simp only [mkPartition] at he ⊢
      exact ⟨eventsLo_le f.events e he, eventsHi_ge f.events e he⟩
  · simp only [archiveHotFiles, if_neg hpa]
    exact hwf

theorem archive_union_perm (opts : ArchiverOptions) (now : ℤ) (s : ArchState) :
    List.Perm
      (hotEvents (archiveHotFiles opts now s).2 ++ coldEvents (archiveHotFiles opts now s).2)
      (hotEvents s ++ coldEvents s) := by
  cases hpa : opts.parquet_available with
  | false =>
      simp only [archiveHotFiles, hpa, Bool.false_eq_true, if_false]
      exact List.Perm.refl _
  | true =>
      simp only [archiveHotFiles, hpa, if_true]
      set p := archEligible opts now with hp
      have hmap : ((s.closedFiles.filter p).map (mkPartition now)).flatMap
          (fun c => c.events) = (s.closedFiles.filter p).flatMap (fun f => f.events) := by
        rw [List.flatMap_map]
        rfl
      simp only [hotEvents, coldEvents, List.flatMap_append, hmap]
      have hfiles : List.Perm
          ((s.closedFiles.filter p).flatMap (fun f => f.events) ++
           (s.closedFiles.filter (fun f => !p f)).flatMap (fun f => f.events))
          (s.closedFiles.flatMap (fun f => f.events)) := by
        have h1 := List.filter_append_perm p s.closedFiles
        have h2 := (h1.map (fun f => f.events)).flatten
        simpa [List.flatMap_def] using h2
      apply Multiset.coe_eq_coe.mp
      have hs := Multiset.coe_eq_coe.mpr hfiles
      simp only [← Multiset.coe_add] at hs ⊢
      rw [← hs]
      abel

theorem writeAll_cons (opts : ArchiverOptions) (esize : EventRecord → ℕ)
    (now : ℤ) (s : ArchState) (e : EventRecord) (es : List EventRecord) :
    writeAll opts esize now s (e :: es) = writeAll opts esize now (writeE opts esize now s e) es :=
  rfl

theorem writeE_rot (opts : ArchiverOptions) (esize : EventRecord → ℕ)
    (now : ℤ) (s : ArchState) (e : EventRecord)
    (h : opts.hot_max_size < fileSize esize s.current + esize e) :
    writeE opts esize now s e =
      { s with
        closedFiles := s.closedFiles ++ [{ s.current with status := HotStatus.CLOSED }],
        current := { seq := s.nextSeq, createdAt := now, status := HotStatus.OPEN,
                     events := [e] },
        nextSeq := s.nextSeq + 1 } := by
  simp [writeE, h]

theorem writeE_app (opts : ArchiverOptions) (esize : EventRecord → ℕ)
    (now : ℤ) (s : ArchState) (e : EventRecord)
    (h : ¬ opts.hot_max_size < fileSize esize s.current + esize e) :
    writeE opts esize now s e =
      { s with current := { s.current with events := s.current.events ++ [e] } } := by
  simp [writeE, h]

theorem writeAll_closed_nil (opts : ArchiverOptions) (esize : EventRecord → ℕ)
    (now : ℤ) :
    ∀ (es : List EventRecord) (s : ArchState),
      (writeAll opts esize now s es).closedFiles = [] → s.closedFiles = [] := by
  intro es
  induction es with
  | nil => intro s h; exact h
  | cons e es ih =>
      intro s h
      rw [writeAll_cons] at h
      have h1 := ih (writeE opts esize now s e) h
      by_cases hrot : opts.hot_max_size < fileSize esize s.current + esize e
      · exfalso
        simp [writeE, hrot] at h1
      · simpa [writeE, hrot] using h1

theorem writeAll_inv (opts : ArchiverOptions) (esize : EventRecord → ℕ)
    (now : ℤ) :
    ∀ (es : List EventRecord) (s : ArchState),
      (∀ e ∈ es, esize e ≤ opts.hot_max_size) →
      (∀ f ∈ allHotFiles s, fileSize esize f ≤ opts.hot_max_size) →
      (∀ f ∈ allHotFiles (writeAll opts esize now s es),
        fileSize esize f ≤ opts.hot_max_size) ∧
      hotEventCount (writeAll opts esize now s es) = hotEventCount s + es.length ∧
      ((writeAll opts esize now s es).closedFiles = [] →
        fileSize esize (writeAll opts esize now s es).current
          = fileSize esize s.current + (es.map esize).sum) := by
  intro es
  induction es with
  | nil =>
      intro s _ hall
      exact ⟨hall, by simp [writeAll], by intro _; simp [writeAll]⟩
  | cons e es ih =>
      intro s hb hall
      have hbe : esize e ≤ opts.hot_max_size := hb e (List.mem_cons_self _ _)
      have hbes : ∀ x ∈ es, esize x ≤ opts.hot_max_size :=
        fun x hx => hb x (List.mem_cons_of_mem _ hx)
      rw [writeAll_cons]
      by_cases hrot : opts.hot_max_size < fileSize esize s.current + esize e
      · -- rotation: the OPEN file is closed, the event lands in a fresh file
        rw [writeE_rot opts esize now s e hrot]
        have hall' : ∀ f ∈ allHotFiles
            { s with
              closedFiles := s.closedFiles ++ [{ s.current with status := HotStatus.CLOSED }],
              current := { seq := s.nextSeq, createdAt := now, status := HotStatus.OPEN,
                           events := [e] },
              nextSeq := s.nextSeq + 1 },
            fileSize esize f ≤ opts.hot_max_size := by
          intro f hf
          simp only [allHotFiles, List.mem_cons, List.mem_append,
            List.mem_singleton, List.not_mem_nil, or_false] at hf
          rcases hf with rfl | hf | rfl
          · simpa [fileSize] using hbe
          · exact hall f (List.mem_cons_of_mem _ hf)
          · exact hall s.current (List.mem_cons_self _ _)
        obtain ⟨h1, h2, h3⟩ := ih _ hbes hall'
        refine ⟨h1, ?_, ?_⟩
        · rw [h2]
          simp [hotEventCount, allHotFiles, List.map_append, List.sum_append]
          omega
        · intro hnil
          exfalso
          have hempty := writeAll_closed_nil opts esize now es _ hnil
          simp at hempty
      · -- plain append to the OPEN file
        rw [writeE_app opts esize now s e hrot]
        have hall' : ∀ f ∈ allHotFiles
            { s with current := { s.current with events := s.current.events ++ [e] } },
            fileSize esize f ≤ opts.hot_max_size := by
          intro f hf
          simp only [allHotFiles, List.mem_cons] at hf
          rcases hf with rfl | hf
          · simp only [fileSize, List.map_append, List.sum_append, List.map_cons,
              List.map_nil, List.sum_cons, List.sum_nil]
            have := le_of_not_lt hrot
            simp only [fileSize] at this
            omega
          · exact hall f (List.mem_cons_of_mem _ hf)
        obtain ⟨h1, h2, h3⟩ := ih _ hbes hall'
        refine ⟨h1, ?_, ?_⟩
        · rw [h2]
          simp [hotEventCount, allHotFiles]
          omega
        · intro hnil
          rw [h3 hnil]
          simp [fileSize, List.map_append, List.sum_append]
          omega

/-- C10: `EventRecord.from_dict (r.to_dict)` recovers `r` exactly (hence
every field — timestamp, event_type, file, project, data, session_id — is
preserved), and `to_dict` maps each field to the dictionary key of the same
name. -/
theorem eventRecord_roundtrip (r : EventRecord) :
    EventRecord.from_dict r.to_dict = some r ∧
    jlookup "timestamp" r.to_dict = some (JVal.jnum r.timestamp) ∧
    jlookup "event_type" r.to_dict = some (JVal.jstr r.event_type) ∧
    jlookup "file" r.to_dict = some (optStr r.file) ∧
    jlookup "project" r.to_dict = some (JVal.jstr r.project) ∧
    jlookup "data" r.to_dict = some (JVal.jobj r.data) ∧
    jlookup "session_id" r.to_dict = some (optStr r.session_id) := by
  obtain ⟨ts, et, f, pr, da, sid⟩ := r
  refine ⟨?_, ?_, ?_, ?_, ?_, ?_, ?_⟩ <;>
    simp [EventRecord.to_dict, EventRecord.from_dict, jlookup, asNum, asStr,
      asOptStr, asObj, optStr] <;>
    cases f <;> cases sid <;> rfl

/-- C1: the multiset of `query()` results over a set of stored events is
identical before and after `archive_hot_files()` runs — no event is lost,
none is duplicated — for every query without a row limit, provided the
cold tier's partition metadata is well-formed. -/
theorem archive_query_roundtrip (opts : ArchiverOptions) (now : ℤ) (s : ArchState)
    (q : QueryParams) (hwf : ColdWF s) (hlim : q.limit = none) :
    List.Perm (queryExec q (archiveHotFiles opts now s).2) (queryExec q s) := by
  have hq : ∀ s' : ArchState, ColdWF s' →
      queryExec q s' = sortByTs ((hotEvents s' ++ coldEvents s').filter (matchesQ q)) := by
    intro s' hwf'
    simp only [queryExec, hlim, coldQuery_eq_filter q s' hwf', List.filter_append]
  rw [hq s hwf, hq _ (archive_coldWF opts now s hwf)]
  exact (sortByTs_perm _).trans
    (((archive_union_perm opts now s).filter (matchesQ q)).trans (sortByTs_perm _).symm)

/-- C1 witness: five events sit in a CLOSED hot file; archiving moves them
to a cold Parquet partition, and a query by project returns the same
multiset of events before and after. -/
theorem archive_query_roundtrip_witness :
    List.Perm (queryExec witQueryP (archiveHotFiles cexOpts 10 witArchState5).2)
      (queryExec witQueryP witArchState5) :=
  archive_query_roundtrip cexOpts 10 witArchState5 witQueryP
    (by intro p hp; simp [witArchState5] at hp) rfl

/-- C2 counterexample: the claim as stated fails when a single event's
serialized size already exceeds `hot_max_size`: with `hot_max_size = 1` and
an event of serialized size 2, the cumulative size (2) exceeds the limit,
yet after the write one hot file holds that event and has size 2 — so "no
individual hot file ever exceeds hot_max_size" is violated. -/
theorem hot_rotation_cex :
    ¬ ((cexOpts.hot_max_size < ([cexRecord].map cexSize).sum →
          2 ≤ (allHotFiles (writeAll cexOpts cexSize 0 (ArchState.init 0)
                [cexRecord])).length) ∧
       (∀ f ∈ allHotFiles (writeAll cexOpts cexSize 0 (ArchState.init 0) [cexRecord]),
          fileSize cexSize f ≤ cexOpts.hot_max_size) ∧
       hotEventCount (writeAll cexOpts cexSize 0 (ArchState.init 0) [cexRecord])
          = [cexRecord].length) := by
  intro h
  have hc := h.2.1 (writeAll cexOpts cexSize 0 (ArchState.init 0) [cexRecord]).current
    (List.mem_cons_self _ _)
  revert hc
  decide

/-- C2 (amended): provided every individual event's serialized size is at
most `hot_max_size`, writing any sequence of events from a fresh Archiver
gives: (a) if the cumulative serialized size exceeds `hot_max_size` there
is more than one hot file; (b) no hot file ever exceeds `hot_max_size`;
(c) the summed event counts across all hot files equal the number of
events written. -/
theorem hot_rotation_bounded (opts : ArchiverOptions) (esize : EventRecord → ℕ)
    (now : ℤ) (es : List EventRecord)
    (hb : ∀ e ∈ es, esize e ≤ opts.hot_max_size) :
    (opts.hot_max_size < (es.map esize).sum →
      2 ≤ (allHotFiles (writeAll opts esize now (ArchState.init now) es)).length) ∧
    (∀ f ∈ allHotFiles (writeAll opts esize now (ArchState.init now) es),
      fileSize esize f ≤ opts.hot_max_size) ∧
    hotEventCount (writeAll opts esize now (ArchState.init now) es) = es.length := by
  have hinit : ∀ f ∈ allHotFiles (ArchState.init now),
      fileSize esize f ≤ opts.hot_max_size := by
    intro f hf
    simp only [ArchState.init, allHotFiles, List.mem_cons, List.not_mem_nil,
      or_false] at hf
    subst hf
    simp [fileSize]
  obtain ⟨h1, h2, h3⟩ := writeAll_inv opts esize now es (ArchState.init now) hb hinit
  refine ⟨?_, h1, ?_⟩
  · intro hsum
    by_contra hlt
    have hnil : (writeAll opts esize now (ArchState.init now) es).closedFiles = [] := by
      have := List.length_cons
        (writeAll opts esize now (ArchState.init now) es).current
        (writeAll opts esize now (ArchState.init now) es).closedFiles
      simp only [allHotFiles] at hlt
      rw [List.length_cons] at hlt
      have : (writeAll opts esize now (ArchState.init now) es).closedFiles.length = 0 := by
        omega
      exact List.length_eq_zero.mp this
    have hcur := h3 hnil
    have hbound := h1 _ (List.mem_cons_self _ _)
    rw [hcur] at hbound
    simp [ArchState.init, fileSize] at hbound
    omega
  · rw [h2]
    simp [ArchState.init, hotEventCount, allHotFiles]

/-- C2 witness: two events of size 1 with `hot_max_size = 1` — cumulative
size 2 exceeds the limit, so rotation yields two hot files, none exceeding
the limit, together holding both events. -/
theorem hot_rotation_bounded_witness :
    (cexOpts.hot_max_size < ([cexRecord, cexRecord].map witSize).sum →
      2 ≤ (allHotFiles (writeAll cexOpts witSize 0 (ArchState.init 0)
            [cexRecord, cexRecord])).length) ∧
    (∀ f ∈ allHotFiles (writeAll cexOpts witSize 0 (ArchState.init 0)
        [cexRecord, cexRecord]),
      fileSize witSize f ≤ cexOpts.hot_max_size) ∧
    hotEventCount (writeAll cexOpts witSize 0 (ArchState.init 0)
        [cexRecord, cexRecord]) = [cexRecord, cexRecord].length :=
  hot_rotation_bounded cexOpts witSize 0 [cexRecord, cexRecord] (by decide)

/-- C7: `cleanup_old_files()` never removes the currently OPEN hot file:
the OPEN file is never a deletion candidate even when its age exceeds the
retention window, and after cleanup it is still in place with its events
intact. -/
theorem cleanup_never_removes_open (opts : ArchiverOptions) (now : ℤ)
    (s : ArchState) (hopen : s.current.status = HotStatus.OPEN)
    (hage : opts.hot_retention < now - s.current.createdAt) :
    canDeleteHot opts now s.current = false ∧
    (cleanupOldFiles opts now s).2.current = s.current ∧
    s.current ∈ allHotFiles (cleanupOldFiles opts now s).2 := by
  refine ⟨?_, rfl, List.mem_cons_self _ _⟩
  simp [canDeleteHot, hopen]

/-- C7 witness: an OPEN hot file created at time 0, cleaned up at time 5
with a retention window of 0 — its age exceeds retention, yet it is not a
deletion candidate and survives cleanup. -/
theorem cleanup_never_removes_open_witness :
    canDeleteHot cexOpts 5 witArchStateOld.current = false ∧
    (cleanupOldFiles cexOpts 5 witArchStateOld).2.current = witArchStateOld.current ∧
    witArchStateOld.current ∈ allHotFiles (cleanupOldFiles cexOpts 5 witArchStateOld).2 :=
  cleanup_never_removes_open cexOpts 5 witArchStateOld rfl (by decide)

/-- C8: when the columnar (pyarrow/Parquet) backend is unavailable,
`archive_hot_files()` is a no-op returning 0 — the state is unchanged (no
hot file is deleted, nothing raises) and every query returns exactly what
it returned before. -/
theorem archive_noop_without_parquet (opts : ArchiverOptions) (now : ℤ)
    (s : ArchState) (h : opts.parquet_available = false) :
    archiveHotFiles opts now s = (0, s) ∧
    (∀ q : QueryParams, queryExec q (archiveHotFiles opts now s).2 = queryExec q s) := by
  have hnoop : archiveHotFiles opts now s = (0, s) := by
    simp [archiveHotFiles, h]
  exact ⟨hnoop, fun q => by rw [hnoop]⟩

/-- C8 witness: with the backend unavailable, archiving the five-event
state returns 0, changes nothing, and the project query is unaffected. -/
theorem archive_noop_without_parquet_witness :
    archiveHotFiles noParquetOpts 10 witArchState5 = (0, witArchState5) ∧
    (∀ q : QueryParams,
      queryExec q (archiveHotFiles noParquetOpts 10 witArchState5).2
        = queryExec q witArchState5) :=
  archive_noop_without_parquet noParquetOpts 10 witArchState5 rfl

theorem emitS_pending (opts : StabilizerOptions) (t : ℤ) (s : StabState)
    (ev : StabilizedEvent) : (emitS opts t s ev).pending = s.pending := by
  cases h : opts.enable_batching <;> simp [emitS, h]

theorem emitS_ms (opts : StabilizerOptions) (t : ℤ) (s : StabState)
    (ev : StabilizedEvent) :
    ((emitS opts t s ev).emitted : Multiset StabilizedEvent)
        + ↑(emitS opts t s ev).batch
      = ↑s.emitted + ↑s.batch + ↑[ev] := by
  cases h : opts.enable_batching <;>
    · simp only [emitS, h, Bool.false_eq_true, if_false, if_true, ← Multiset.coe_add]
      abel

theorem foldEmit_spec (opts : StabilizerOptions) (t : ℤ) :
    ∀ (ps : List ((String × Option String) × PendingEntry)) (acc : StabState),
      (ps.foldl (fun a kv => emitS opts t a (mkStab kv.2)) acc).pending = acc.pending ∧
      ((ps.foldl (fun a kv => emitS opts t a (mkStab kv.2)) acc).emitted :
          Multiset StabilizedEvent)
          + ↑(ps.foldl (fun a kv => emitS opts t a (mkStab kv.2)) acc).batch
        = ↑acc.emitted + ↑acc.batch + ↑(ps.map (fun kv => mkStab kv.2)) := by
  intro ps
  induction ps with
  | nil => intro acc; simp
  | cons kv ps ih =>
      intro acc
      rw [List.foldl_cons]
      obtain ⟨h1, h2⟩ := ih (emitS opts t acc (mkStab kv.2))
      refine ⟨h1.trans (emitS_pending opts t acc (mkStab kv.2)), ?_⟩
      rw [h2, emitS_ms]
      simp only [List.map_cons, ← Multiset.coe_add, Multiset.cons_coe]
      abel

/-- C5: `flush()` leaves zero pending state — every per-key timer entry is
gone and the batch is drained — and every event pending (or batched) at the
moment of the call is emitted exactly once: the multiset of emissions grows
by exactly the pending entries and the old batch. -/
theorem flush_clears_pending (opts : StabilizerOptions) (t : ℤ) (s : StabState) :
    (flushS opts t s).pending = [] ∧
    (flushS opts t s).batch = [] ∧
    ((flushS opts t s).emitted : Multiset StabilizedEvent)
      = ↑s.emitted + ↑s.batch + ↑(s.pending.map (fun kv => mkStab kv.2)) := by
  obtain ⟨h1, h2⟩ := foldEmit_spec opts t s.pending { s with pending := [] }
  refine ⟨h1, rfl, ?_⟩
  show ((s.pending.foldl (fun a kv => emitS opts t a (mkStab kv.2))
      { s with pending := [] }).emitted ++
      (s.pending.foldl (fun a kv => emitS opts t a (mkStab kv.2))
      { s with pending := [] }).batch : Multiset StabilizedEvent)
    = ↑s.emitted + ↑s.batch + ↑(s.pending.map (fun kv => mkStab kv.2))
  rw [← Multiset.coe_add, h2]

theorem submit_fresh_first (opts : StabilizerOptions) (e : RawEvent)
    (hty : e.type ≠ "") (hig : ignoredFile e = false)
    (hdelay : 0 < opts.debounce_delay) (hcap : 0 < opts.max_events_per_second) :
    submit opts 0 (StabState.fresh 0) e
      = midState (eventKey e) { event := e, count := 1, firstSeen := 0, lastSeen := 0 } 1 0 := by
  have hw : ¬ (1 ≤ (0:ℤ) - 0) := by decide
  have hrl : ¬ (opts.max_events_per_second ≤ 0) := by omega
  have hd : ¬ (opts.debounce_delay ≤ 0) := not_le.mpr hdelay
  simp [submit, StabState.fresh, StabStats.zero, midState, hty, hig, hw, hrl,
    hd, recentHit, findPend]

theorem submit_mid_step (opts : StabilizerOptions) (k : String × Option String)
    (e : RawEvent) (en : PendingEntry) (i deb : ℕ)
    (hk : eventKey e = k) (hty : e.type ≠ "") (hig : ignoredFile e = false)
    (hlt : i < opts.max_events_per_second) :
    submit opts 0 (midState k en i deb) e
      = midState k { en with event := e, count := en.count + 1, lastSeen := 0 }
          (i + 1) (deb + 1) := by
  have hw : ¬ (1 ≤ (0:ℤ) - 0) := by decide
  have hrl : ¬ (opts.max_events_per_second ≤ i) := not_le.mpr hlt
  simp [submit, midState, hty, hig, hw, hrl, recentHit, findPend, hk, updatePend]

theorem submit_mid_run (opts : StabilizerOptions) (k : String × Option String) :
    ∀ (es : List RawEvent) (en : PendingEntry) (i deb : ℕ),
      (∀ e ∈ es, eventKey e = k ∧ e.type ≠ "" ∧ ignoredFile e = false) →
      i + es.length ≤ opts.max_events_per_second →
      ∃ en' : PendingEntry,
        es.foldl (submit opts 0) (midState k en i deb)
          = midState k en' (i + es.length) (deb + es.length) ∧
        en'.count = en.count + es.length := by
  intro es
  induction es with
  | nil => intro en i deb _ _; exact ⟨en, by simp, by simp⟩
  | cons e es ih =>
      intro en i deb hprops hcap
      obtain ⟨hk, hty, hig⟩ := hprops e (List.mem_cons_self _ _)
      have hlt : i < opts.max_events_per_second := by
        simp only [List.length_cons] at hcap; omega
      rw [List.foldl_cons, submit_mid_step opts k e en i deb hk hty hig hlt]
      obtain ⟨en', h1, h2⟩ := ih _ (i + 1) (deb + 1)
        (fun x hx => hprops x (List.mem_cons_of_mem _ hx))
        (by simp only [List.length_cons] at hcap ⊢; omega)
      refine ⟨en', ?_, ?_⟩
      · rw [h1]
        have e1 : i + 1 + es.length = i + (e :: es).length := by
          simp only [List.length_cons]; omega
        have e2 : deb + 1 + es.length = deb + (e :: es).length := by
          simp only [List.length_cons]; omega
        rw [e1, e2]
      · rw [h2]
        simp only [List.length_cons]
        omega

/-- C3: submitting `k ≥ 1` events for one key within the debounce window
yields exactly one pending entry for that key (one timer — re-submission
restarts it, never stacks a second) whose count equals `k`, nothing emitted
until the timer fires, and the firing emits exactly one StabilizedEvent
with `debounce_count = k`, leaving nothing pending. -/
theorem debounce_single_emission (opts : StabilizerOptions)
    (k : String × Option String) (e₀ : RawEvent) (rest : List RawEvent)
    (hprops : ∀ e ∈ e₀ :: rest, eventKey e = k ∧ e.type ≠ "" ∧ ignoredFile e = false)
    (hdelay : 0 < opts.debounce_delay)
    (hbatch : opts.enable_batching = false)
    (hcap : (e₀ :: rest).length ≤ opts.max_events_per_second) :
    (∃ en : PendingEntry,
      ((e₀ :: rest).foldl (submit opts 0) (StabState.fresh 0)).pending = [(k, en)] ∧
      en.count = (e₀ :: rest).length) ∧
    ((e₀ :: rest).foldl (submit opts 0) (StabState.fresh 0)).emitted = [] ∧
    (∃ ev : StabilizedEvent,
      (fireTimer opts 0 ((e₀ :: rest).foldl (submit opts 0) (StabState.fresh 0)) k).emitted
        = [ev] ∧
      ev.debounce_count = (e₀ :: rest).length) ∧
    (fireTimer opts 0 ((e₀ :: rest).foldl (submit opts 0) (StabState.fresh 0)) k).pending
      = [] ∧
    ((e₀ :: rest).foldl (submit opts 0) (StabState.fresh 0)).stats.debounced
      = rest.length := by
  obtain ⟨hk0, hty0, hig0⟩ := hprops e₀ (List.mem_cons_self _ _)
  have hcap0 : 0 < opts.max_events_per_second := by
    simp only [List.length_cons] at hcap; omega
  have hfold : (e₀ :: rest).foldl (submit opts 0) (StabState.fresh 0)
      = rest.foldl (submit opts 0)
          (midState k { event := e₀, count := 1, firstSeen := 0, lastSeen := 0 } 1 0) := by
    rw [List.foldl_cons, submit_fresh_first opts e₀ hty0 hig0 hdelay hcap0, hk0]
  obtain ⟨en', h1, h2⟩ := submit_mid_run opts k rest
      { event := e₀, count := 1, firstSeen := 0, lastSeen := 0 } 1 0
      (fun x hx => hprops x (List.mem_cons_of_mem _ hx))
      (by simp only [List.length_cons] at hcap; omega)
  have hstate : (e₀ :: rest).foldl (submit opts 0) (StabState.fresh 0)
      = midState k en' (1 + rest.length) rest.length := by
    rw [hfold, h1]
    simp
  have hcnt : en'.count = (e₀ :: rest).length := by
    rw [h2]
    simp only [List.length_cons]
    omega
  refine ⟨⟨en', by rw [hstate]; rfl, hcnt⟩, by rw [hstate]; rfl, ?_, ?_, ?_⟩
  · refine ⟨mkStab en', ?_, ?_⟩
    · rw [hstate]
      simp [fireTimer, findPend, midState, removePend, emitS, hbatch]
    · simpa [mkStab] using hcnt
  · rw [hstate]
    simp [fireTimer, findPend, midState, removePend, emitS, hbatch]
  · rw [hstate]
    simp only [List.length_cons, midState]

/-- C3 witness: three identical-key file-edit submissions with a positive
debounce delay collapse into one pending timer of count 3, and firing emits
a single event with `debounce_count = 3`. -/
theorem debounce_single_emission_witness :
    (∃ en : PendingEntry,
      ([editEvent, editEvent, editEvent].foldl (submit witStabOpts 0)
          (StabState.fresh 0)).pending = [(("file_edit", none), en)] ∧
      en.count = [editEvent, editEvent, editEvent].length) ∧
    ([editEvent, editEvent, editEvent].foldl (submit witStabOpts 0)
        (StabState.fresh 0)).emitted = [] ∧
    (∃ ev : StabilizedEvent,
      (fireTimer witStabOpts 0
          ([editEvent, editEvent, editEvent].foldl (submit witStabOpts 0)
            (StabState.fresh 0)) ("file_edit", none)).emitted = [ev] ∧
      ev.debounce_count = [editEvent, editEvent, editEvent].length) ∧
    (fireTimer witStabOpts 0
        ([editEvent, editEvent, editEvent].foldl (submit witStabOpts 0)
          (StabState.fresh 0)) ("file_edit", none)).pending = [] ∧
    ([editEvent, editEvent, editEvent].foldl (submit witStabOpts 0)
        (StabState.fresh 0)).stats.debounced = [editEvent, editEvent].length :=
  debounce_single_emission witStabOpts ("file_edit", none) editEvent
    [editEvent, editEvent] (by decide) (by decide) rfl (by decide)

theorem c4State_fresh : c4State [] 0 = StabState.fresh 0 := by
  simp [c4State, StabState.fresh, StabStats.zero]

theorem c4_recentHit_false (opts : StabilizerOptions) (acc : List RawEvent)
    (t : ℤ) (wst : ℤ) (wc : ℕ) (st : StabStats) (e : RawEvent) (hnew : e ∉ acc) :
    recentHit opts t
      { pending := [], recent := acc.map (fun x => (x, 0)), winStart := wst,
        winCount := wc, batch := [],
        emitted := acc.map (fun x =>
          { event := x, debounce_count := 1, firstSeen := 0, lastSeen := 0 }),
        stats := st } e = false := by
  simp only [recentHit, List.any_eq_false]
  intro x hx
  obtain ⟨y, hy, rfl⟩ := List.mem_map.mp hx
  simp only [Bool.and_eq_true, decide_eq_true_eq, not_and]
  intro hcon
  exact absurd (hcon ▸ hy) hnew

theorem c4_step_accept (opts : StabilizerOptions) (acc : List RawEvent)
    (i : ℕ) (e : RawEvent)
    (hty : e.type ≠ "") (hig : ignoredFile e = false)
    (hdelay : opts.debounce_delay ≤ 0) (hbatch : opts.enable_batching = false)
    (hnew : e ∉ acc) (hlt : acc.length < opts.max_events_per_second)
    (hi : acc.length ≤ i) :
    submit opts 0 (c4State acc i) e = c4State (acc ++ [e]) (i + 1) := by
  have hw : ¬ (1 ≤ (0:ℤ) - 0) := by decide
  have hrl : ¬ (opts.max_events_per_second ≤ acc.length) := not_le.mpr hlt
  have hrh := c4_recentHit_false opts acc 0 0 (acc.length + 1)
    { received := i + 1, processed := acc.length, filtered := 0, debounced := 0,
      deduplicated := 0, rate_limited := i - acc.length } e hnew
  simp only [submit, c4State, hty, hw, hrl, hig, Bool.and_false,
    if_neg, if_false, ite_false, reduceIte] at hrh ⊢
  simp [hrh, findPend, hdelay, emitS, hbatch, Nat.succ_sub_succ, hty, hig, hw, hrl]

theorem c4_step_limit (opts : StabilizerOptions) (acc : List RawEvent)
    (i : ℕ) (e : RawEvent)
    (hty : e.type ≠ "") (hig : ignoredFile e = false)
    (hge : opts.max_events_per_second ≤ acc.length) (hi : acc.length ≤ i) :
    submit opts 0 (c4State acc i) e = c4State acc (i + 1) := by
  have hw : ¬ (1 ≤ (0:ℤ) - 0) := by decide
  simp [submit, c4State, hty, hig, hw, hge]
  omega

theorem c4_run (opts : StabilizerOptions)
    (hdelay : opts.debounce_delay ≤ 0) (hbatch : opts.enable_batching = false) :
    ∀ (es : List RawEvent) (acc : List RawEvent) (i : ℕ),
      (∀ e ∈ es, e.type ≠ "" ∧ ignoredFile e = false) →
      (∀ e ∈ es, e ∉ acc) →
      List.Pairwise (fun a b => a ≠ b) es →
      acc.length ≤ opts.max_events_per_second →
      acc.length ≤ i →
      ∃ acc' : List RawEvent,
        es.foldl (submit opts 0) (c4State acc i) = c4State acc' (i + es.length) ∧
        acc'.length = min (acc.length + es.length) opts.max_events_per_second := by
  intro es
  induction es with
  | nil =>
      intro acc i _ _ _ hle _
      exact ⟨acc, by simp, by simp only [List.length_nil, Nat.add_zero]; omega⟩
  | cons e es ih =>
      intro acc i hval hnew hpw hle hi
      obtain ⟨hty, hig⟩ := hval e (List.mem_cons_self _ _)
      rcases lt_or_ge acc.length opts.max_events_per_second with hlt | hge
      · rw [List.foldl_cons, c4_step_accept opts acc i e hty hig hdelay hbatch
          (hnew e (List.mem_cons_self _ _)) hlt hi]
        obtain ⟨acc', h1, h2⟩ := ih (acc ++ [e]) (i + 1)
          (fun x hx => hval x (List.mem_cons_of_mem _ hx))
          (by
            intro x hx
            simp only [List.mem_append, List.mem_singleton]
            rintro (hxa | rfl)
            · exact hnew x (List.mem_cons_of_mem _ hx) hxa
            · exact (List.rel_of_pairwise_cons hpw hx) rfl)
          (List.Pairwise.of_cons hpw)
          (by simp only [List.length_append, List.length_cons, List.length_nil]; omega)
          (by simp only [List.length_append, List.length_cons, List.length_nil]; omega)
        refine ⟨acc', ?_, ?_⟩
        · rw [h1]
          have : i + 1 + es.length = i + (e :: es).length := by
            simp only [List.length_cons]; omega
          rw [this]
        · rw [h2]
          simp only [List.length_append, List.length_cons, List.length_nil]
          omega
      · rw [List.foldl_cons, c4_step_limit opts acc i e hty hig hge hi]
        obtain ⟨acc', h1, h2⟩ := ih acc (i + 1)
          (fun x hx => hval x (List.mem_cons_of_mem _ hx))
          (fun x hx => hnew x (List.mem_cons_of_mem _ hx))
          (List.Pairwise.of_cons hpw) hle (by omega)
        refine ⟨acc', ?_, ?_⟩
        · rw [h1]
          have : i + 1 + es.length = i + (e :: es).length := by
            simp only [List.length_cons]; omega
          rw [this]
        · rw [h2]
          simp only [List.length_cons]
          omega

/-- C4: submitting `N` valid, pairwise-distinct events within one rolling
second to a fresh Stabilizer with cap `M < N` (zero debounce delay,
non-batching) yields exactly `M` processed (and emitted) events and exactly
`N − M` counted as `rate_limited`; the excess is dropped, not raised. -/
theorem rate_limit_caps (opts : StabilizerOptions) (es : List RawEvent)
    (hval : ∀ e ∈ es, e.type ≠ "" ∧ ignoredFile e = false)
    (hpw : List.Pairwise (fun a b => a ≠ b) es)
    (hdelay : opts.debounce_delay ≤ 0) (hbatch : opts.enable_batching = false)
    (hNM : opts.max_events_per_second < es.length) :
    (es.foldl (submit opts 0) (StabState.fresh 0)).stats.processed
        = opts.max_events_per_second ∧
    (es.foldl (submit opts 0) (StabState.fresh 0)).stats.rate_limited
        = es.length - opts.max_events_per_second ∧
    (es.foldl (submit opts 0) (StabState.fresh 0)).emitted.length
        = opts.max_events_per_second := by
  obtain ⟨acc', h1, h2⟩ := c4_run opts hdelay hbatch es [] 0 hval
    (by simp) hpw (by simp) (by simp)
  rw [← c4State_fresh, h1]
  have hlen : acc'.length = opts.max_events_per_second := by
    simp only [List.length_nil] at h2
    omega
  refine ⟨by simp [c4State, hlen], by simp [c4State, hlen], by simp [c4State, hlen]⟩

/-- C4 witness: three distinct terminal events against a cap of 2 — exactly
2 processed and emitted, exactly 1 rate-limited. -/
theorem rate_limit_caps_witness :
    (termEvents.foldl (submit rateStabOpts 0) (StabState.fresh 0)).stats.processed
        = rateStabOpts.max_events_per_second ∧
    (termEvents.foldl (submit rateStabOpts 0) (StabState.fresh 0)).stats.rate_limited
        = termEvents.length - rateStabOpts.max_events_per_second ∧
    (termEvents.foldl (submit rateStabOpts 0) (StabState.fresh 0)).emitted.length
        = rateStabOpts.max_events_per_second :=
  rate_limit_caps rateStabOpts termEvents (by decide) (by decide) (by decide)
    rfl (by decide)

/-- C6: two structurally identical consecutive submissions for the same
key within the recency window (first one emitted immediately — zero
debounce delay) yield exactly one emission: the duplicate is dropped and
counted as `deduplicated`, the pending entries (hence the debounce counts)
of every other key are untouched, and no extra `debounced` count accrues. -/
theorem dedup_drops_duplicate (opts : StabilizerOptions)
    (ps : List ((String × Option String) × PendingEntry))
    (B E : List StabilizedEvent) (st : StabStats) (e : RawEvent)
    (hty : e.type ≠ "") (hig : ignoredFile e = false)
    (hdelay : opts.debounce_delay ≤ 0) (hbatch : opts.enable_batching = false)
    (hcap : 2 ≤ opts.max_events_per_second)
    (hwindow : 0 ≤ opts.dedup_window)
    (hnopend : findPend (eventKey e) ps = none) :
    (submit opts 0 (submit opts 0 (dedupState ps B E st) e) e).emitted
        = E ++
          [{ event := e, debounce_count := 1, firstSeen := 0, lastSeen := 0 }] ∧
    (submit opts 0 (submit opts 0 (dedupState ps B E st) e) e).stats.deduplicated
        = st.deduplicated + 1 ∧
    (submit opts 0 (submit opts 0 (dedupState ps B E st) e) e).pending = ps ∧
    (submit opts 0 (submit opts 0 (dedupState ps B E st) e) e).stats.debounced
        = st.debounced ∧
    (submit opts 0 (submit opts 0 (dedupState ps B E st) e) e).stats.processed
        = st.processed + 1 := by
  have hw : ¬ (1 ≤ (0:ℤ) - 0) := by decide
  have hc1 : ¬ (opts.max_events_per_second ≤ 0) := by omega
  have hc2 : ¬ (opts.max_events_per_second ≤ 0 + 1) := by omega
  have hwd : ((0:ℤ) - 0 ≤ opts.dedup_window) := by simpa using hwindow
  have hs1 : submit opts 0 (dedupState ps B E st) e
      = { pending := ps, recent := [(e, 0)], winStart := 0, winCount := 1,
          batch := B,
          emitted := E ++
            [{ event := e, debounce_count := 1, firstSeen := 0, lastSeen := 0 }],
          stats := { st with received := st.received + 1, processed := st.processed + 1 } } := by
    simp [submit, dedupState, emitS, recentHit, hty, hig, hw, hc1, hnopend,
      hdelay, hbatch]
  rw [hs1]
  refine ⟨?_, ?_, ?_, ?_, ?_⟩ <;>
    simp [submit, emitS, recentHit, hty, hig, hw, hc2, hwd, hwindow]

/-- C6 witness: the same focus event submitted twice at zero debounce delay
— one emission, one `deduplicated`, and the pending debounce entry of an
unrelated file-edit key is untouched. -/
theorem dedup_drops_duplicate_witness :
    (submit dedupStabOpts 0
        (submit dedupStabOpts 0
          (dedupState witFrameState.pending [] [] StabStats.zero) focusEvent)
        focusEvent).emitted
      = [] ++
        [{ event := focusEvent, debounce_count := 1, firstSeen := 0, lastSeen := 0 }] ∧
    (submit dedupStabOpts 0
        (submit dedupStabOpts 0
          (dedupState witFrameState.pending [] [] StabStats.zero) focusEvent)
        focusEvent).stats.deduplicated
      = StabStats.zero.deduplicated + 1 ∧
    (submit dedupStabOpts 0
        (submit dedupStabOpts 0
          (dedupState witFrameState.pending [] [] StabStats.zero) focusEvent)
        focusEvent).pending = witFrameState.pending ∧
    (submit dedupStabOpts 0
        (submit dedupStabOpts 0
          (dedupState witFrameState.pending [] [] StabStats.zero) focusEvent)
        focusEvent).stats.debounced = StabStats.zero.debounced ∧
    (submit dedupStabOpts 0
        (submit dedupStabOpts 0
          (dedupState witFrameState.pending [] [] StabStats.zero) focusEvent)
        focusEvent).stats.processed = StabStats.zero.processed + 1 :=
  dedup_drops_duplicate dedupStabOpts witFrameState.pending [] [] StabStats.zero
    focusEvent (by decide) rfl (by decide) rfl (by decide) (by decide) (by decide)

theorem connStep_keeps_state (c : ConnState) (line : Option IpcMsg) :
    (connStep c line).1 = c := by
  cases line <;> by_cases h : c.alive = true <;> simp [connStep, h]

theorem runConn_alive (lines : List (Option IpcMsg)) :
    runConn ⟨true⟩ lines
      = (⟨true⟩, lines.flatMap fun l => (connStep ⟨true⟩ l).2) := by
  induction lines with
  | nil => rfl
  | cons l rest ih =>
      simp only [runConn, List.flatMap_cons, connStep_keeps_state]
      rw [ih]

/-- C9: over an IPC connection, every `ping` line receives a response of
type `pong` with `ok: true` carrying the same id, and the connection stays
alive across the whole line sequence — in particular malformed JSON lines
(`none`, skipped and logged) before the ping never terminate the
connection, so a ping after a malformed line is still answered. -/
theorem ipc_ping_pong (pre post : List (Option IpcMsg)) (m : IpcMsg)
    (hping : m.type = "ping") :
    (runConn ⟨true⟩ (pre ++ some m :: post)).1.alive = true ∧
    mkPong m ∈ (runConn ⟨true⟩ (pre ++ some m :: post)).2 ∧
    (mkPong m).type = "pong" ∧ (mkPong m).ok = some true ∧
    (mkPong m).id = m.id := by
  rw [runConn_alive]
  refine ⟨rfl, ?_, rfl, rfl, rfl⟩
  apply List.mem_flatMap.mpr
  refine ⟨some m, ?_, ?_⟩
  · simp
  · simp [connStep, handleMsg, hping]

/-- C9 witness: a ping, then a malformed JSON line, then a second ping —
the connection survives and the second ping still receives its pong. -/
theorem ipc_ping_pong_witness :
    (runConn ⟨true⟩ ([some pingMsg, none] ++ some pingMsg2 :: [])).1.alive = true ∧
    mkPong pingMsg2 ∈ (runConn ⟨true⟩ ([some pingMsg, none] ++ some pingMsg2 :: [])).2 ∧
    (mkPong pingMsg2).type = "pong" ∧ (mkPong pingMsg2).ok = some true ∧
    (mkPong pingMsg2).id = pingMsg2.id :=
  ipc_ping_pong [some pingMsg, none] [] pingMsg2 rfl

end Vidurai
